import Mathlib

/-!
Verification of the matomecreative client-side edit-history and persistence
engine.  The definitions below are a shallow embedding of the TypeScript
source: browser `File` objects become records of name, MIME type and byte
list; the React `useState` pair `history : File[]` / `historyIndex : number`
becomes a record with an integer index; each handler becomes a pure function
on that record.  JavaScript numbers in play are small integers and are
modelled as `Int`/`Nat`; fallible code returns `Except`/`Option`.  Platform
primitives used by the source (`atob`, `FileReader.readAsDataURL`,
`String.prototype.split`, the regex `/:(.*?);/`, `JSON.parse`/`stringify`,
`parseInt`, `localStorage`, IndexedDB `getAll`, `Array.prototype.sort`,
`URL.createObjectURL`/`revokeObjectURL`) are modelled explicitly next to the
functions that call them.
-/

/-- A browser `File` object as used by the app: an immutable byte payload
plus `name` and `type` (MIME) metadata.  Bytes are `Nat` values `< 256`. -/
structure File where
  name : String
  mimeType : String
  bytes : List Nat
  deriving DecidableEq, Repr

/-- The history state held by the `App` component: the `history : File[]`
array together with the `historyIndex : number` pointer.  `-1` means no
history.  Transient UI fields (crop rectangle, hotspots) that the
history-stack claims never mention are carried in `AppState` below. -/
structure AppHistory where
  history : List File
  historyIndex : Int
  deriving DecidableEq, Repr

/-- Model of JavaScript `Array.prototype.slice(0, end)` : a negative `end`
counts from the end of the array, and `end` is clamped to `[0, length]`. -/
def jsSliceToEnd (l : List α) (e : Int) : List α :=
  if e < 0 then l.take ((l.length : Int) + e).toNat else l.take e.toNat

/-- `canUndo = historyIndex > 0` from the source. -/
def canUndo (s : AppHistory) : Bool :=
  decide (0 < s.historyIndex)

/-- `canRedo = historyIndex < history.length - 1` from the source. -/
def canRedo (s : AppHistory) : Bool :=
  decide (s.historyIndex < (s.history.length : Int) - 1)

/-- `addImageToHistory`: `history.slice(0, historyIndex + 1)`, push the new
file, and set `historyIndex` to the new length minus one. -/
def addImageToHistory (s : AppHistory) (newImageFile : File) : AppHistory :=
  let newHistory := jsSliceToEnd s.history (s.historyIndex + 1) ++ [newImageFile]
  { history := newHistory, historyIndex := (newHistory.length : Int) - 1 }

/-- `handleUndo`: decrement `historyIndex` when `canUndo`, otherwise leave
the state alone. -/
def handleUndo (s : AppHistory) : AppHistory :=
  if canUndo s then { s with historyIndex := s.historyIndex - 1 } else s

/-- `handleRedo`: increment `historyIndex` when `canRedo`, otherwise leave
the state alone. -/
def handleRedo (s : AppHistory) : AppHistory :=
  if canRedo s then { s with historyIndex := s.historyIndex + 1 } else s

/-- `handleUploadNew`: `setHistory([]); setHistoryIndex(-1)` — the
"start over" action, restricted to the history-stack fields. -/
def handleUploadNew (_s : AppHistory) : AppHistory :=
  { history := [], historyIndex := -1 }

/-- `history[historyIndex] ?? null` : JavaScript indexing with a negative or
out-of-range index yields `undefined`, which `?? null` turns into `null`. -/
def currentImage (s : AppHistory) : Option File :=
  if 0 ≤ s.historyIndex then s.history[s.historyIndex.toNat]? else none

/-- `history[0] ?? null`. -/
def originalImage (s : AppHistory) : Option File :=
  s.history[0]?

/-- A history state is valid when `currentIndex` lies in `[-1, length-1]`. -/
def ValidStack (s : AppHistory) : Prop :=
  -1 ≤ s.historyIndex ∧ s.historyIndex ≤ (s.history.length : Int) - 1

/-- The three history-engine operations the invariant claim ranges over. -/
inductive HistOp where
  | append (f : File)
  | undo
  | redo
  deriving DecidableEq

/-- Apply one operation to the history state. -/
def applyOp (s : AppHistory) : HistOp → AppHistory
  | .append f => addImageToHistory s f
  | .undo => handleUndo s
  | .redo => handleRedo s

/-- Apply a whole sequence of operations, left to right. -/
def applyOps (s : AppHistory) (ops : List HistOp) : AppHistory :=
  ops.foldl applyOp s

/-! ### The media codec: `dataURLtoFile` and `fileToDataURL` -/

/-- The base64 alphabet shared by `btoa` and `atob`. -/
def b64Chars : List Char :=
  "ABCDEFGHIJKLMNOPQRSTUVWXYZabcdefghijklmnopqrstuvwxyz0123456789+/".toList

/-- The character for a sextet value. -/
def b64Char (n : Nat) : Char := b64Chars.getD n 'A'

/-- The sextet value of a character, `none` outside the alphabet. -/
def b64Index (c : Char) : Option Nat := b64Chars.findIdx? (fun x => x == c)

/-- `btoa` on a byte sequence: standard base64 with `=` padding, three bytes
to four characters. -/
def btoaEncode : List Nat → List Char
  | [] => []
  | [a] => [b64Char (a / 4), b64Char (a % 4 * 16), '=', '=']
  | [a, b] => [b64Char (a / 4), b64Char (a % 4 * 16 + b / 16), b64Char (b % 16 * 4), '=']
  | a :: b :: c :: rest =>
      b64Char (a / 4) :: b64Char (a % 4 * 16 + b / 16) ::
      b64Char (b % 16 * 4 + c / 64) :: b64Char (c % 64) :: btoaEncode rest

/-- Sextets back to bytes; a trailing group of two or three sextets yields
one or two bytes, leftover bits discarded (forgiving-base64 step 10). -/
def sextetsToBytes : List Nat → List Nat
  | [] => []
  | [_] => []
  | [a, b] => [a * 4 + b / 16]
  | [a, b, c] => [a * 4 + b / 16, b % 16 * 16 + c / 4]
  | a :: b :: c :: d :: rest =>
      (a * 4 + b / 16) :: (b % 16 * 16 + c / 4) :: (c % 4 * 64 + d) :: sextetsToBytes rest

/-- ASCII whitespace, stripped by forgiving-base64. -/
def isAsciiWs (c : Char) : Bool :=
  c == ' ' || c == '\t' || c == '\n' || c == '\x0c' || c == '\r'

/-- Forgiving-base64 step 2: when the length is a multiple of four, remove
up to two trailing `=` characters. -/
def stripPad (s : List Char) : List Char :=
  if s.length % 4 == 0 then
    match s.reverse with
    | '=' :: '=' :: rest => rest.reverse
    | '=' :: rest => rest.reverse
    | _ => s
  else s

/-- Map a fallible function over a list, failing as a whole when any
element fails (the behaviour of a `.map` whose body can throw). -/
def mapOpt (f : α → Option β) : List α → Option (List β)
  | [] => some []
  | a :: l =>
    match f a, mapOpt f l with
    | some b, some bs => some (b :: bs)
    | _, _ => none

/-- Model of `atob` (WHATWG forgiving-base64 decode): strip ASCII
whitespace, strip padding, fail when the remaining length is `1 mod 4` or
any character is outside the alphabet.  The thrown `InvalidCharacterError`
becomes an `Except.error`. -/
def atobDecode (str : List Char) : Except String (List Nat) :=
  let s := str.filter (fun c => !(isAsciiWs c))
  let s2 := stripPad s
  if s2.length % 4 == 1 then .error "InvalidCharacterError"
  else
    match mapOpt b64Index s2 with
    | some sextets => .ok (sextetsToBytes sextets)
    | none => .error "InvalidCharacterError"

/-- Model of JavaScript `String.prototype.split` with a one-character
separator: `"a,,b"` splits to `["a","","b"]` and `""` to `[""]`. -/
def splitOnChar (sep : Char) : List Char → List (List Char)
  | [] => [[]]
  | c :: rest =>
    match splitOnChar sep rest with
    | h :: t => if c = sep then [] :: h :: t else (c :: h) :: t
    | [] => [[]]

/-- The characters the regex `.` does not match (line terminators). -/
def isLineTerm (c : Char) : Bool :=
  c == '\n' || c == '\r' || c == '\u2028' || c == '\u2029'

/-- The lazy capture of `/:(.*?);/` after a colon: the characters up to the
next `;`, failing if a line terminator or the end of the string comes
first. -/
def captureToSemi : List Char → Option (List Char)
  | [] => none
  | c :: rest =>
    if c = ';' then some []
    else if isLineTerm c then none
    else (captureToSemi rest).map (c :: ·)

/-- Model of `header.match(/:(.*?);/)`, group 1: the match starts at the
first `:` from which a `;` is reachable. -/
def mimeCapture : List Char → Option (List Char)
  | [] => none
  | c :: rest =>
    if c = ':' then
      match captureToSemi rest with
      | some cap => some cap
      | none => mimeCapture rest
    else mimeCapture rest

/-- `dataURLtoFile` from the source: split the data URL on `,` (at least
two parts required), extract the MIME type from the header with
`/:(.*?);/` (a missing or empty capture throws), `atob`-decode the payload
into bytes, and build a `File`.  Each `throw` becomes `Except.error` with
the thrown message. -/
def dataURLtoFile (dataurl : String) (filename : String) : Except String File :=
  match splitOnChar ',' dataurl.toList with
  | a0 :: a1 :: _ =>
    match mimeCapture a0 with
    | none => .error "Could not parse MIME type from data URL"
    | some mime =>
      if mime = [] then .error "Could not parse MIME type from data URL"
      else
        match atobDecode a1 with
        | .error e => .error e
        | .ok bytes => .ok ⟨filename, String.mk mime, bytes⟩
  | _ => .error "Invalid data URL"

/-- `fileToDataURL` / `FileReader.readAsDataURL`: the encoded string is
`data:<mime>;base64,<base64 payload>`. -/
def fileToDataURL (file : File) : String :=
  "data:" ++ file.mimeType ++ ";base64," ++ String.mk (btoaEncode file.bytes)

/-- The sextet stream of a byte list, without padding characters. -/
def bytesToSextets : List Nat → List Nat
  | [] => []
  | [a] => [a / 4, a % 4 * 16]
  | [a, b] => [a / 4, a % 4 * 16 + b / 16, b % 16 * 4]
  | a :: b :: c :: rest =>
      a / 4 :: (a % 4 * 16 + b / 16) :: (b % 16 * 4 + c / 64) :: c % 64 :: bytesToSextets rest

/-- How many `=` padding characters `btoaEncode` appends. -/
def padLen (l : List Nat) : Nat := (3 - l.length % 3) % 3

/-! ### History persistence: `loadInitialState` and `saveState` -/

/-- One element of the persisted `matome_creative_history` array. -/
structure StoredEntry where
  dataUrl : String
  name : String
  deriving DecidableEq, Repr

/-- JSON whitespace. -/
def jsonWsChar (c : Char) : Bool :=
  c == ' ' || c == '\t' || c == '\n' || c == '\r'

/-- Skip JSON whitespace. -/
def skipJsonWs (s : List Char) : List Char := s.dropWhile jsonWsChar

/-- Hexadecimal digit value. -/
def hexVal (c : Char) : Option Nat :=
  if '0' ≤ c ∧ c ≤ '9' then some (c.toNat - 48)
  else if 'a' ≤ c ∧ c ≤ 'f' then some (c.toNat - 87)
  else if 'A' ≤ c ∧ c ≤ 'F' then some (c.toNat - 55)
  else none

/-- Parse the body of a JSON string (opening quote already consumed),
handling the escape sequences of the JSON grammar and rejecting raw
control characters, as `JSON.parse` does.  `fuel` bounds the recursion and
is always supplied larger than the input. -/
def parseJStr (fuel : Nat) (acc : List Char) (s : List Char) : Option (String × List Char) :=
  match fuel with
  | 0 => none
  | fuel + 1 =>
    match s with
    | [] => none
    | c :: rest =>
      if c = '"' then some (String.mk acc.reverse, rest)
      else if c = '\\' then
        match rest with
        | 'u' :: h1 :: h2 :: h3 :: h4 :: rest2 =>
          match hexVal h1, hexVal h2, hexVal h3, hexVal h4 with
          | some a, some b, some c2, some d =>
              parseJStr fuel (Char.ofNat (((a * 16 + b) * 16 + c2) * 16 + d) :: acc) rest2
          | _, _, _, _ => none
        | e :: rest2 =>
          if e = '"' then parseJStr fuel ('"' :: acc) rest2
          else if e = '\\' then parseJStr fuel ('\\' :: acc) rest2
          else if e = '/' then parseJStr fuel ('/' :: acc) rest2
          else if e = 'b' then parseJStr fuel ('\x08' :: acc) rest2
          else if e = 'f' then parseJStr fuel ('\x0c' :: acc) rest2
          else if e = 'n' then parseJStr fuel ('\n' :: acc) rest2
          else if e = 'r' then parseJStr fuel ('\r' :: acc) rest2
          else if e = 't' then parseJStr fuel ('\t' :: acc) rest2
          else none
        | [] => none
      else if c.toNat < 32 then none
      else parseJStr fuel (c :: acc) rest

/-- Parse one `"key" : "value"` field of a persisted-history object.  The
app only ever writes string-valued fields (`dataUrl`, `name`); a field of
any other shape is treated as a failure, which in the source surfaces as a
`TypeError` thrown while decoding and lands in the same `catch`. -/
def parseJField (fuel : Nat) (s : List Char) : Option ((String × String) × List Char) :=
  match skipJsonWs s with
  | '"' :: rest =>
    match parseJStr fuel [] rest with
    | some (key, rest2) =>
      match skipJsonWs rest2 with
      | ':' :: rest3 =>
        match skipJsonWs rest3 with
        | '"' :: rest4 =>
          match parseJStr fuel [] rest4 with
          | some (val, rest5) => some ((key, val), rest5)
          | none => none
        | _ => none
      | _ => none
    | none => none
  | _ => none

/-- Parse the remaining fields of an object, first field not yet parsed. -/
def parseJObjFields (fuel : Nat) (acc : List (String × String)) (s : List Char) :
    Option (List (String × String) × List Char) :=
  match fuel with
  | 0 => none
  | fuel + 1 =>
    match parseJField fuel s with
    | some (kv, rest) =>
      match skipJsonWs rest with
      | ',' :: rest2 => parseJObjFields fuel (kv :: acc) rest2
      | '\x7d' :: rest2 => some ((kv :: acc).reverse, rest2)
      | _ => none
    | none => none

/-- Parse one JSON object (list of string fields). -/
def parseJObjAt (fuel : Nat) (s : List Char) : Option (List (String × String) × List Char) :=
  match skipJsonWs s with
  | '\x7b' :: rest =>
    match skipJsonWs rest with
    | '\x7d' :: rest2 => some ([], rest2)
    | _ => parseJObjFields fuel [] rest
  | _ => none

/-- Parse the elements of the top-level array, first element not yet
parsed. -/
def parseJArrItems (fuel : Nat) (acc : List (List (String × String))) (s : List Char) :
    Option (List (List (String × String)) × List Char) :=
  match fuel with
  | 0 => none
  | fuel + 1 =>
    match parseJObjAt fuel s with
    | some (obj, rest) =>
      match skipJsonWs rest with
      | ',' :: rest2 => parseJArrItems fuel (obj :: acc) rest2
      | ']' :: rest2 => some ((obj :: acc).reverse, rest2)
      | _ => none
    | none => none

/-- Model of `JSON.parse` applied to the persisted history value: the app
writes an array of flat objects with string fields, and this parser
accepts exactly that JSON sublanguage (any other JSON shape is treated as
a parse failure; in the source such values survive `JSON.parse` but make
the subsequent decode `.map` throw, landing in the same `catch`). -/
def parseEntriesJson (s : String) : Option (List (List (String × String))) :=
  let cs := s.toList
  match skipJsonWs cs with
  | '[' :: rest =>
    match skipJsonWs rest with
    | ']' :: rest2 => if skipJsonWs rest2 = [] then some [] else none
    | _ =>
      match parseJArrItems (cs.length + 2) [] rest with
      | some (objs, rest2) => if skipJsonWs rest2 = [] then some objs else none
      | none => none
  | _ => none

/-- Property access on a JS object literal: a later duplicate key
overwrites an earlier one. -/
def lookupField (k : String) (ps : List (String × String)) : Option String :=
  ps.foldl (fun acc kv => if kv.1 = k then some kv.2 else acc) none

/-- `item.dataUrl` and `item.name` of a parsed object. -/
def entryOfPairs (ps : List (String × String)) : Option StoredEntry :=
  match lookupField "dataUrl" ps, lookupField "name" ps with
  | some d, some n => some ⟨d, n⟩
  | _, _ => none

/-- `JSON.parse(savedHistoryJSON)` viewed as a list of
`{dataUrl, name}` entries. -/
def jsonParseEntries (s : String) : Option (List StoredEntry) :=
  (parseEntriesJson s).bind (mapOpt entryOfPairs)

/-- JavaScript whitespace accepted by `parseInt` before the number. -/
def jsWsChar (c : Char) : Bool :=
  c == ' ' || c == '\t' || c == '\n' || c == '\r' || c == '\x0b' || c == '\x0c' ||
  c == '\xa0' || c == '\ufeff' || c == '\u2028' || c == '\u2029'

/-- The leading decimal-digit value of a character list, `none` when there
is no leading digit. -/
def digitsValue (l : List Char) : Option Nat :=
  let ds := l.takeWhile Char.isDigit
  if ds.isEmpty then none
  else some (ds.foldl (fun a c => a * 10 + (c.toNat - 48)) 0)

/-- Model of `parseInt(s, 10)`: skip leading whitespace, optional sign,
then the longest run of decimal digits; `none` models `NaN`. -/
def parseIntJS (s : String) : Option Int :=
  match s.toList.dropWhile jsWsChar with
  | '-' :: rest => (digitsValue rest).map (fun n => -(n : Int))
  | '+' :: rest => (digitsValue rest).map (fun n => (n : Int))
  | t => (digitsValue t).map (fun n => (n : Int))

/-- Model of `String.prototype.trim`: strip leading and trailing
JavaScript whitespace. -/
def jsTrim (s : String) : String :=
  String.mk (((s.toList.dropWhile jsWsChar).reverse.dropWhile jsWsChar).reverse)

/-- The two `localStorage` keys used by the app
(`matome_creative_history` and `matome_creative_historyIndex`);
`none` means the key is absent. -/
structure LocalStorage where
  history : Option String
  historyIndex : Option String
  deriving DecidableEq, Repr

/-- Map a throwing function over a list; the first thrown error aborts the
whole map, as in the source's `savedHistory.map(...)` inside `try`. -/
def mapExcept (f : α → Except ε β) : List α → Except ε (List β)
  | [] => .ok []
  | a :: l =>
    match f a with
    | .error e => .error e
    | .ok b =>
      match mapExcept f l with
      | .error e => .error e
      | .ok bs => .ok (b :: bs)

/-- `loadInitialState` from the source, returning both the restored
`{history, historyIndex}` and the storage left behind: a missing key or a
falsy (empty-string) value returns the empty state without touching
storage; a `JSON.parse` failure or a decode failure lands in the `catch`,
which removes both keys and returns the empty state; a decoded history
gets its index validated (`NaN` or out of `[0, length-1]` clamps to the
last index, or to `-1` when empty).  The function is total: no exception
escapes it. -/
def loadInitialState (ls : LocalStorage) : (List File × Int) × LocalStorage :=
  match ls.history, ls.historyIndex with
  | some savedHistoryJSON, some savedIndexStr =>
    if savedHistoryJSON = "" ∨ savedIndexStr = "" then (([], -1), ls)
    else
      match jsonParseEntries savedHistoryJSON with
      | none => (([], -1), ⟨none, none⟩)
      | some savedHistory =>
        match mapExcept (fun item => dataURLtoFile item.dataUrl item.name) savedHistory with
        | .error _ => (([], -1), ⟨none, none⟩)
        | .ok history =>
          let idx : Int :=
            match parseIntJS savedIndexStr with
            | none => if 0 < history.length then (history.length : Int) - 1 else -1
            | some i =>
              if i < 0 ∨ (history.length : Int) ≤ i then
                if 0 < history.length then (history.length : Int) - 1 else -1
              else i
          ((history, idx), ls)
  | _, _ => (([], -1), ls)

/-- The hexadecimal digit character `JSON.stringify` uses in `\u00XX`. -/
def hexDigitChar (n : Nat) : Char :=
  if n < 10 then Char.ofNat (48 + n) else Char.ofNat (87 + n)

/-- `JSON.stringify` escaping of one string. -/
def jsonQuote (s : String) : String :=
  String.mk ('"' :: s.toList.foldr (fun c acc =>
    if c = '"' then '\\' :: '"' :: acc
    else if c = '\\' then '\\' :: '\\' :: acc
    else if c = '\x08' then '\\' :: 'b' :: acc
    else if c = '\t' then '\\' :: 't' :: acc
    else if c = '\n' then '\\' :: 'n' :: acc
    else if c = '\x0c' then '\\' :: 'f' :: acc
    else if c = '\r' then '\\' :: 'r' :: acc
    else if c.toNat < 32 then
      '\\' :: 'u' :: '0' :: '0' :: hexDigitChar (c.toNat / 16) :: hexDigitChar (c.toNat % 16) :: acc
    else c :: acc) ['"'])

/-- `JSON.stringify` of the serializable history array. -/
def jsonStringifyEntries (entries : List StoredEntry) : String :=
  "[" ++ String.intercalate "," (entries.map (fun e =>
    "\x7b" ++ jsonQuote "dataUrl" ++ ":" ++ jsonQuote e.dataUrl ++ "," ++
      jsonQuote "name" ++ ":" ++ jsonQuote e.name ++ "\x7d")) ++ "]"

/-- The `saveState` persistence effect: when `history.length > 0 &&
historyIndex >= 0`, serialize every file with `fileToDataURL` and write
both keys; otherwise remove both keys. -/
def saveState (s : AppHistory) : LocalStorage :=
  if 0 < s.history.length ∧ 0 ≤ s.historyIndex then
    { history := some (jsonStringifyEntries
        (s.history.map (fun file => ⟨fileToDataURL file, file.name⟩))),
      historyIndex := some (toString s.historyIndex) }
  else
    { history := none, historyIndex := none }

/-! ### The gallery store -/

/-- A `SavedItem` row of the `saved-items` store: auto-incremented integer
`id`, the saved file, and `createdAt` as a millisecond timestamp. -/
structure SavedItem where
  id : Nat
  file : File
  createdAt : Int
  deriving DecidableEq, Repr

/-- `getAllItemsFromGallery`: IndexedDB `getAll()` hands the function the
entries in ascending primary-key (`id`) order; the code then sorts with the
comparator `(a, b) => b.createdAt.getTime() - a.createdAt.getTime()`
(newest first) using the engine's stable `Array.prototype.sort`, modelled
by the stable `List.mergeSort`. -/
def getAllItemsFromGallery (items : List SavedItem) : List SavedItem :=
  items.mergeSort (fun a b => decide (b.createdAt ≤ a.createdAt))

/-- Modelled from the spec (§4.3 Gallery Store): `listAll` ordered by
`createdAt` descending with a stable tie-break by `id` descending — the
ordering the claim asserts, for comparison with the source's
`getAllItemsFromGallery`. -/
def listAllSpecOrdered (items : List SavedItem) : List SavedItem :=
  items.mergeSort (fun a b =>
    decide (b.createdAt < a.createdAt ∨ (b.createdAt = a.createdAt ∧ b.id ≤ a.id)))

/-! ### The object-URL lifecycle (Resource Lifetime Manager) -/

/-- The object-URL state of one role (`current` or `original`): the URLs
created and not yet revoked for the role, the URL created by the role's
last effect run (if it created one), and a fresh-URL counter
(`URL.createObjectURL` returns a fresh URL each call). -/
structure UrlRoleState where
  live : List Nat
  cur : Option Nat
  next : Nat
  deriving DecidableEq, Repr

/-- The state before the first effect run. -/
def initialUrlRoleState : UrlRoleState := ⟨[], none, 0⟩

/-- One run of the role's object-URL `useEffect` when its bound media
changes (React runs the previous run's cleanup — revoking the URL it
created — before the new body): if media is present, create a fresh URL;
otherwise set the role's URL to `null`. -/
def effectStep (st : UrlRoleState) (media : Option File) : UrlRoleState :=
  let live1 :=
    match st.cur with
    | some url => st.live.erase url
    | none => st.live
  match media with
  | some _ => ⟨live1 ++ [st.next], some st.next, st.next + 1⟩
  | none => ⟨live1, none, st.next⟩

/-- Run the effect over a whole sequence of bound-media changes. -/
def runEffects (events : List (Option File)) : UrlRoleState :=
  events.foldl effectStep initialUrlRoleState

/-! ### The mutating editor actions -/

/-- The `App` component state the mutating-action claims mention: the
history stack plus the error channel (`setError`), the loading flag, the
prompt, the retouch hotspots and the toast message. -/
structure AppState where
  hist : AppHistory
  error : Option String
  isLoading : Bool
  prompt : String
  editHotspot : Option (Int × Int)
  displayHotspot : Option (Int × Int)
  toastMessage : Option String
  deriving DecidableEq, Repr

/-- `handleGenerate` with the settled outcome of the
`generateEditedImage` call passed in as `ai` (`.error msg` models a
rejection whose `Error.message` is `msg`) and `Date.now()` as `now`:
validation failures set an error and return; a rejected call or a throwing
`dataURLtoFile` lands in `catch`, which reports through `setError`; a
successful call appends to the history. -/
def handleGenerate (s : AppState) (ai : Except String String) (now : String) : AppState :=
  match currentImage s.hist with
  | none => { s with error := some "編集する画像が読み込まれていません。" }
  | some _ =>
    if jsTrim s.prompt = "" then { s with error := some "編集内容を入力してください。" }
    else
      match s.editHotspot with
      | none => { s with error := some "編集する領域を画像上でクリックして選択してください。" }
      | some _ =>
        match ai with
        | .error msg =>
          { s with error := some ("画像の生成に失敗しました。 " ++ msg), isLoading := false }
        | .ok editedImageUrl =>
          match dataURLtoFile editedImageUrl ("edited-" ++ now ++ ".png") with
          | .error msg =>
            { s with error := some ("画像の生成に失敗しました。 " ++ msg), isLoading := false }
          | .ok newImageFile =>
            { s with hist := addImageToHistory s.hist newImageFile,
                     editHotspot := none, displayHotspot := none,
                     error := none, isLoading := false }

/-- `handleApplyFilter`, with the settled `generateFilteredImage` outcome
passed in as `ai`. -/
def handleApplyFilter (s : AppState) (ai : Except String String) (now : String) : AppState :=
  match currentImage s.hist with
  | none => { s with error := some "フィルターを適用する画像が読み込まれていません。" }
  | some _ =>
    match ai with
    | .error msg =>
      { s with error := some ("フィルターの適用に失敗しました。 " ++ msg), isLoading := false }
    | .ok filteredImageUrl =>
      match dataURLtoFile filteredImageUrl ("filtered-" ++ now ++ ".png") with
      | .error msg =>
        { s with error := some ("フィルターの適用に失敗しました。 " ++ msg), isLoading := false }
      | .ok newImageFile =>
        { s with hist := addImageToHistory s.hist newImageFile,
                 error := none, isLoading := false }

/-- `handleApplyAdjustment`, with the settled `generateAdjustedImage`
outcome passed in as `ai`. -/
def handleApplyAdjustment (s : AppState) (ai : Except String String) (now : String) : AppState :=
  match currentImage s.hist with
  | none => { s with error := some "調整を適用する画像が読み込まれていません。" }
  | some _ =>
    match ai with
    | .error msg =>
      { s with error := some ("調整の適用に失敗しました。 " ++ msg), isLoading := false }
    | .ok adjustedImageUrl =>
      match dataURLtoFile adjustedImageUrl ("adjusted-" ++ now ++ ".png") with
      | .error msg =>
        { s with error := some ("調整の適用に失敗しました。 " ++ msg), isLoading := false }
      | .ok newImageFile =>
        { s with hist := addImageToHistory s.hist newImageFile,
                 error := none, isLoading := false }

/-- `handleUpscaleImage`, with the settled `upscaleImage` outcome passed in
as `ai`; success also sets the toast message. -/
def handleUpscaleImage (s : AppState) (ai : Except String String) (now : String) : AppState :=
  match currentImage s.hist with
  | none => { s with error := some "高品質化する画像が読み込まれていません。" }
  | some _ =>
    match ai with
    | .error msg =>
      { s with error := some ("画像の高品質化に失敗しました。 " ++ msg), isLoading := false }
    | .ok upscaledImageUrl =>
      match dataURLtoFile upscaledImageUrl ("upscaled-" ++ now ++ ".png") with
      | .error msg =>
        { s with error := some ("画像の高品質化に失敗しました。 " ++ msg), isLoading := false }
      | .ok newImageFile =>
        { s with hist := addImageToHistory s.hist newImageFile,
                 toastMessage := some "画像を高品質化しました。",
                 error := none, isLoading := false }

/-- Sample file used by concrete witnesses. -/
def fileA : File := ⟨"a.png", "image/png", [1]⟩

/-- Sample file used by concrete witnesses. -/
def fileB : File := ⟨"b.png", "image/png", [2]⟩

/-- Sample file used by concrete witnesses. -/
def fileC : File := ⟨"c.png", "image/png", [3]⟩

/-! ## Theorems -/

theorem validStack_applyOp (s : AppHistory) (op : HistOp) (h : ValidStack s) :
    ValidStack (applyOp s op) := by
  obtain ⟨h1, h2⟩ := h
  cases op with
  | append f =>
      simp only [applyOp, addImageToHistory, ValidStack, jsSliceToEnd,
        List.length_append, List.length_take]
      constructor <;> split <;> simp <;> omega
  | undo =>
      simp only [applyOp, handleUndo, canUndo]
      split <;> simp_all [ValidStack] <;> omega
  | redo =>
      simp only [applyOp, handleRedo, canRedo]
      split <;> simp_all [ValidStack] <;> omega

/-- C1: every sequence of append / undo / redo operations, started from a
valid state (`currentIndex` in `[-1, length-1]`), keeps `currentIndex` in
`[-1, length-1]`, and the sequence length stays nonnegative. -/
theorem history_ops_preserve_invariant (s : AppHistory) (ops : List HistOp)
    (h : ValidStack s) :
    (-1 ≤ (applyOps s ops).historyIndex ∧
      (applyOps s ops).historyIndex ≤ ((applyOps s ops).history.length : Int) - 1) ∧
    0 ≤ (applyOps s ops).history.length := by
  refine ⟨?_, Nat.zero_le _⟩
  induction ops generalizing s with
  | nil => exact h
  | cons op rest ih => exact ih (applyOp s op) (validStack_applyOp s op h)

theorem history_ops_preserve_invariant_witness :
    (-1 ≤ (applyOps ⟨[], -1⟩ [.append fileA, .undo, .redo]).historyIndex ∧
      (applyOps ⟨[], -1⟩ [.append fileA, .undo, .redo]).historyIndex ≤
        ((applyOps ⟨[], -1⟩ [.append fileA, .undo, .redo]).history.length : Int) - 1) ∧
    0 ≤ (applyOps ⟨[], -1⟩ [.append fileA, .undo, .redo]).history.length :=
  history_ops_preserve_invariant ⟨[], -1⟩ _ ⟨by decide, by decide⟩

/-- C2: from a valid stack, `append` truncates the sequence to positions
`[0..currentIndex]`, appends the new media, and the resulting index is both
`currentIndex + 1` and the new length minus one. -/
theorem addImageToHistory_spec (s : AppHistory) (f : File) (h : ValidStack s) :
    addImageToHistory s f =
      { history := s.history.take (s.historyIndex + 1).toNat ++ [f],
        historyIndex := s.historyIndex + 1 } ∧
    (addImageToHistory s f).historyIndex =
      ((addImageToHistory s f).history.length : Int) - 1 := by
  obtain ⟨h1, h2⟩ := h
  have hnn : ¬ (s.historyIndex + 1 < 0) := by omega
  have hlen : (s.historyIndex + 1).toNat ≤ s.history.length := by omega
  constructor
  · simp only [addImageToHistory, jsSliceToEnd, hnn, if_false]
    refine congrArg₂ AppHistory.mk rfl ?_
    simp only [List.length_append, List.length_take, Nat.min_eq_left hlen,
      List.length_cons, List.length_nil]
    omega
  · simp [addImageToHistory]

theorem addImageToHistory_spec_witness :
    addImageToHistory ⟨[fileA, fileB], 0⟩ fileC = ⟨[fileA, fileC], 1⟩ ∧
    fileB ∉ (addImageToHistory ⟨[fileA, fileB], 0⟩ fileC).history := by
  have h := addImageToHistory_spec ⟨[fileA, fileB], 0⟩ fileC ⟨by decide, by decide⟩
  refine ⟨?_, ?_⟩
  · rw [h.1]; decide
  · rw [h.1]; decide

/-- C5: `undo` is a no-op unless `currentIndex > 0`, in which case it
decrements the index by exactly one and leaves the sequence unchanged;
`redo` is a no-op unless `currentIndex < length - 1`, in which case it
increments the index by exactly one and leaves the sequence unchanged. -/
theorem undo_redo_spec (s : AppHistory) :
    (¬ 0 < s.historyIndex → handleUndo s = s) ∧
    (0 < s.historyIndex →
      handleUndo s = { s with historyIndex := s.historyIndex - 1 }) ∧
    (¬ s.historyIndex < (s.history.length : Int) - 1 → handleRedo s = s) ∧
    (s.historyIndex < (s.history.length : Int) - 1 →
      handleRedo s = { s with historyIndex := s.historyIndex + 1 }) := by
  refine ⟨fun h => ?_, fun h => ?_, fun h => ?_, fun h => ?_⟩ <;>
    simp [handleUndo, handleRedo, canUndo, canRedo, h]

theorem undo_redo_spec_witness :
    handleUndo ⟨[fileA], 0⟩ = ⟨[fileA], 0⟩ ∧
    handleUndo ⟨[fileA, fileB], 1⟩ = ⟨[fileA, fileB], 0⟩ ∧
    handleRedo ⟨[fileA, fileB], 1⟩ = ⟨[fileA, fileB], 1⟩ ∧
    handleRedo ⟨[fileA, fileB], 0⟩ = ⟨[fileA, fileB], 1⟩ :=
  ⟨(undo_redo_spec ⟨[fileA], 0⟩).1 (by decide),
    (undo_redo_spec ⟨[fileA, fileB], 1⟩).2.1 (by decide),
    (undo_redo_spec ⟨[fileA, fileB], 1⟩).2.2.1 (by decide),
    (undo_redo_spec ⟨[fileA, fileB], 0⟩).2.2.2 (by decide)⟩

theorem b64Char_mem (n : Nat) : b64Char n ∈ b64Chars := by
  rcases Nat.lt_or_ge n 64 with h | h
  · have hall : ∀ m < 64, b64Char m ∈ b64Chars := by decide
    exact hall n h
  · unfold b64Char
    rw [List.getD_eq_default]
    · decide
    · simpa using h

theorem b64Chars_props : ∀ c ∈ b64Chars,
    isAsciiWs c = false ∧ c ≠ '=' ∧ c ≠ ',' := by decide

theorem b64Index_b64Char (n : Nat) (h : n < 64) : b64Index (b64Char n) = some n := by
  have hall : ∀ m < 64, b64Index (b64Char m) = some m := by decide
  exact hall n h

theorem btoaEncode_mem (l : List Nat) :
    ∀ c ∈ btoaEncode l, c ∈ b64Chars ∨ c = '=' := by
  induction l using btoaEncode.induct with
  | case1 => simp [btoaEncode]
  | case2 a =>
      intro c hc
      simp only [btoaEncode, List.mem_cons, List.not_mem_nil, or_false] at hc
      rcases hc with rfl | rfl | rfl | rfl
      · exact .inl (b64Char_mem _)
      · exact .inl (b64Char_mem _)
      · exact .inr rfl
      · exact .inr rfl
  | case3 a b =>
      intro c hc
      simp only [btoaEncode, List.mem_cons, List.not_mem_nil, or_false] at hc
      rcases hc with rfl | rfl | rfl | rfl
      · exact .inl (b64Char_mem _)
      · exact .inl (b64Char_mem _)
      · exact .inl (b64Char_mem _)
      · exact .inr rfl
  | case4 a b c rest ih =>
      intro x hx
      simp only [btoaEncode, List.mem_cons] at hx
      rcases hx with rfl | rfl | rfl | rfl | hx
      · exact .inl (b64Char_mem _)
      · exact .inl (b64Char_mem _)
      · exact .inl (b64Char_mem _)
      · exact .inl (b64Char_mem _)
      · exact ih x hx

theorem btoaEncode_length (l : List Nat) : (btoaEncode l).length % 4 = 0 := by
  induction l using btoaEncode.induct with
  | case1 => rfl
  | case2 a => simp [btoaEncode]
  | case3 a b => simp [btoaEncode]
  | case4 a b c rest ih => simp [btoaEncode, List.length_cons]; omega

theorem btoaEncode_eq (l : List Nat) :
    btoaEncode l = (bytesToSextets l).map b64Char ++ List.replicate (padLen l) '=' := by
  induction l using btoaEncode.induct with
  | case1 => rfl
  | case2 a => simp [btoaEncode, bytesToSextets, padLen, List.replicate]
  | case3 a b => simp [btoaEncode, bytesToSextets, padLen, List.replicate]
  | case4 a b c rest ih =>
      have hp : padLen (a :: b :: c :: rest) = padLen rest := by
        simp only [padLen, List.length_cons]
        omega
      simp [btoaEncode, bytesToSextets, ih, hp]

theorem bytesToSextets_lt (l : List Nat) (h : ∀ b ∈ l, b < 256) :
    ∀ x ∈ bytesToSextets l, x < 64 := by
  induction l using bytesToSextets.induct with
  | case1 => simp [bytesToSextets]
  | case2 a =>
      have := h a (by simp)
      simp only [bytesToSextets, List.mem_cons, List.not_mem_nil, or_false]
      rintro x (rfl | rfl) <;> omega
  | case3 a b =>
      have ha := h a (by simp)
      have hb := h b (by simp)
      simp only [bytesToSextets, List.mem_cons, List.not_mem_nil, or_false]
      rintro x (rfl | rfl | rfl) <;> omega
  | case4 a b c rest ih =>
      have ha := h a (by simp)
      have hb := h b (by simp)
      have hc := h c (by simp)
      simp only [bytesToSextets, List.mem_cons]
      rintro x (rfl | rfl | rfl | rfl | hx)
      · omega
      · omega
      · omega
      · omega
      · exact ih (fun y hy => h y (by simp [hy])) x hx

theorem sextetsToBytes_bytesToSextets (l : List Nat) (h : ∀ b ∈ l, b < 256) :
    sextetsToBytes (bytesToSextets l) = l := by
  induction l using bytesToSextets.induct with
  | case1 => rfl
  | case2 a =>
      have := h a (by simp)
      simp only [bytesToSextets, sextetsToBytes]
      congr 1
      omega
  | case3 a b =>
      have ha := h a (by simp)
      have hb := h b (by simp)
      simp only [bytesToSextets, sextetsToBytes]
      congr 1
      · omega
      · congr 1; omega
  | case4 a b c rest ih =>
      have ha := h a (by simp)
      have hb := h b (by simp)
      have hc := h c (by simp)
      simp only [bytesToSextets, sextetsToBytes]
      congr 1
      · omega
      · congr 1
        · omega
        · congr 1
          · omega
          · exact ih (fun y hy => h y (by simp [hy]))

theorem bytesToSextets_length (l : List Nat) :
    (bytesToSextets l).length % 4 ≠ 1 := by
  induction l using bytesToSextets.induct with
  | case1 => simp [bytesToSextets]
  | case2 a => simp [bytesToSextets]
  | case3 a b => simp [bytesToSextets]
  | case4 a b c rest ih => simp only [bytesToSextets, List.length_cons]; omega

theorem mapOpt_b64Index (S : List Nat) (h : ∀ x ∈ S, x < 64) :
    mapOpt b64Index (S.map b64Char) = some S := by
  induction S with
  | nil => rfl
  | cons a l ih =>
      have ha := h a (by simp)
      simp [mapOpt, b64Index_b64Char a ha, ih (fun y hy => h y (by simp [hy]))]

theorem stripPad_no_pad_append (M : List Char) (hM : ∀ c ∈ M, c ≠ '=')
    (k : Nat) (hk : k ≤ 2) (h4 : (M.length + k) % 4 = 0) :
    stripPad (M ++ List.replicate k '=') = M := by
  have hguard : ((M ++ List.replicate k '=').length % 4 == 0) = true := by
    simp only [List.length_append, List.length_replicate, beq_iff_eq]
    omega
  unfold stripPad
  rw [if_pos hguard, List.reverse_append, List.reverse_replicate]
  interval_cases k
  · simp only [List.replicate, List.nil_append]
    cases hrev : M.reverse with
    | nil =>
        simp only [List.reverse_eq_nil_iff] at hrev
        subst hrev
        rfl
    | cons x xs =>
        have hx : x ≠ '=' := by
          apply hM
          rw [← List.mem_reverse, hrev]
          exact List.mem_cons_self x xs
        split
        · next heq => exact absurd (List.head_eq_of_cons_eq heq) hx
        · next heq => exact absurd (List.head_eq_of_cons_eq heq) hx
        · simp
  · simp only [List.replicate, List.cons_append, List.nil_append]
    cases hrev : M.reverse with
    | nil =>
        simp only [List.reverse_eq_nil_iff] at hrev
        subst hrev
        rfl
    | cons x xs =>
        have hx : x ≠ '=' := by
          apply hM
          rw [← List.mem_reverse, hrev]
          exact List.mem_cons_self x xs
        split
        · next heq =>
            exact absurd (List.head_eq_of_cons_eq (List.tail_eq_of_cons_eq heq)) hx
        · next heq =>
            rw [← List.tail_eq_of_cons_eq heq, ← hrev, List.reverse_reverse]
        · next h1 h2 => exact absurd rfl (h2 (x :: xs))
  · simp only [List.replicate, List.cons_append, List.nil_append]
    simp [List.reverse_reverse]

theorem atobDecode_btoaEncode (l : List Nat) (h : ∀ b ∈ l, b < 256) :
    atobDecode (btoaEncode l) = .ok l := by
  have hmem := btoaEncode_mem l
  have hfilter : (btoaEncode l).filter (fun c => !(isAsciiWs c)) = btoaEncode l := by
    rw [List.filter_eq_self]
    intro c hc
    rcases hmem c hc with hb | rfl
    · simp [(b64Chars_props c hb).1]
    · decide
  have hlt := bytesToSextets_lt l h
  have hpad : padLen l ≤ 2 := by unfold padLen; omega
  have h4 : (((bytesToSextets l).map b64Char).length + padLen l) % 4 = 0 := by
    have h0 := btoaEncode_length l
    rw [btoaEncode_eq] at h0
    simpa [List.length_append, List.length_map, List.length_replicate] using h0
  have hM : ∀ c ∈ (bytesToSextets l).map b64Char, c ≠ '=' := by
    intro c hc
    obtain ⟨n, _, rfl⟩ := List.mem_map.mp hc
    exact (b64Chars_props _ (b64Char_mem n)).2.1
  have hg : (((bytesToSextets l).map b64Char).length % 4 == 1) = false := by
    simp only [List.length_map, beq_eq_false_iff_ne, ne_eq]
    exact bytesToSextets_length l
  unfold atobDecode
  dsimp only
  rw [hfilter, btoaEncode_eq, stripPad_no_pad_append _ hM _ hpad h4, hg]
  simp only [Bool.false_eq_true, if_false]
  rw [mapOpt_b64Index _ hlt]
  dsimp only
  rw [sextetsToBytes_bytesToSextets l h]

theorem splitOnChar_ne_nil (sep : Char) (l : List Char) : splitOnChar sep l ≠ [] := by
  induction l with
  | nil => simp [splitOnChar]
  | cons c rest ih =>
      simp only [splitOnChar]
      cases hr : splitOnChar sep rest with
      | nil => simp
      | cons h t => by_cases hcs : c = sep <;> simp [hcs]

theorem splitOnChar_no_sep (sep : Char) (l : List Char) (h : ∀ c ∈ l, c ≠ sep) :
    splitOnChar sep l = [l] := by
  induction l with
  | nil => rfl
  | cons c rest ih =>
      have hc := h c (by simp)
      rw [splitOnChar, ih (fun y hy => h y (by simp [hy]))]
      simp [hc]

theorem splitOnChar_append_sep (sep : Char) (xs ys : List Char)
    (h : ∀ c ∈ xs, c ≠ sep) :
    splitOnChar sep (xs ++ sep :: ys) = xs :: splitOnChar sep ys := by
  induction xs with
  | nil =>
      simp only [List.nil_append, splitOnChar]
      cases hr : splitOnChar sep ys with
      | nil => exact absurd hr (splitOnChar_ne_nil sep ys)
      | cons a t => simp
  | cons c rest ih =>
      have hc := h c (by simp)
      have hrest := ih (fun y hy => h y (by simp [hy]))
      rw [List.cons_append]
      conv_lhs => unfold splitOnChar
      rw [hrest]
      simp [hc]

theorem captureToSemi_append (xs ys : List Char)
    (h : ∀ c ∈ xs, c ≠ ';' ∧ isLineTerm c = false) :
    captureToSemi (xs ++ ';' :: ys) = some xs := by
  induction xs with
  | nil => simp [captureToSemi]
  | cons c rest ih =>
      obtain ⟨h1, h2⟩ := h c (by simp)
      simp [captureToSemi, h1, h2, ih (fun y hy => h y (by simp [hy]))]

theorem mimeCapture_header (mime ys : List Char)
    (hm : ∀ c ∈ mime, c ≠ ';' ∧ isLineTerm c = false) :
    mimeCapture ('d' :: 'a' :: 't' :: 'a' :: ':' :: (mime ++ ';' :: ys)) = some mime := by
  simp [mimeCapture, captureToSemi_append mime ys hm]

/-- C4: decoding the encoded string produced for a media object
(`dataURLtoFile (fileToDataURL m) n`) yields a `File` with the same MIME
type and byte content, for any well-formed MIME type (in particular
`image/png` and `video/mp4`, see the witness) and any byte payload. -/
theorem codec_round_trip (m : File) (n : String)
    (hb : ∀ b ∈ m.bytes, b < 256)
    (hne : m.mimeType ≠ "")
    (hm : ∀ c ∈ m.mimeType.toList, c ≠ ',' ∧ c ≠ ';' ∧ isLineTerm c = false) :
    dataURLtoFile (fileToDataURL m) n = .ok ⟨n, m.mimeType, m.bytes⟩ := by
  obtain ⟨nm, mt, bs⟩ := m
  simp only at hb hne hm ⊢
  have hdata : (fileToDataURL ⟨nm, mt, bs⟩).toList =
      (('d' :: 'a' :: 't' :: 'a' :: ':' ::
          (mt.toList ++ ';' :: ['b', 'a', 's', 'e', '6', '4'])) ++
        ',' :: btoaEncode bs) := by
    simp only [fileToDataURL, String.toList, String.data_append]
    simp [List.append_assoc]
  have hsplit : splitOnChar ',' (fileToDataURL ⟨nm, mt, bs⟩).toList =
      ('d' :: 'a' :: 't' :: 'a' :: ':' ::
          (mt.toList ++ ';' :: ['b', 'a', 's', 'e', '6', '4'])) ::
        [btoaEncode bs] := by
    rw [hdata, splitOnChar_append_sep, splitOnChar_no_sep]
    · intro c hc
      rcases btoaEncode_mem bs c hc with hmem | rfl
      · exact (b64Chars_props c hmem).2.2
      · decide
    · intro c hc
      simp only [List.mem_cons] at hc
      rcases hc with rfl | rfl | rfl | rfl | rfl | hc
      · decide
      · decide
      · decide
      · decide
      · decide
      · rcases List.mem_append.mp hc with hc | hc
        · exact (hm c hc).1
        · simp only [List.mem_cons, List.not_mem_nil, or_false] at hc
          rcases hc with rfl | rfl | rfl | rfl | rfl | rfl | rfl <;> decide
  have hmtne : ¬ (mt.toList = []) := fun hnil => hne (String.ext hnil)
  unfold dataURLtoFile
  rw [hsplit]
  dsimp only
  rw [mimeCapture_header mt.toList ['b', 'a', 's', 'e', '6', '4']
    (fun c hc => ⟨(hm c hc).2.1, (hm c hc).2.2⟩)]
  dsimp only
  rw [if_neg hmtne]
  rw [atobDecode_btoaEncode bs hb]
  rfl

theorem codec_round_trip_witness :
    dataURLtoFile (fileToDataURL ⟨"p", "image/png", [137, 80, 78, 71]⟩) "r.png" =
      .ok ⟨"r.png", "image/png", [137, 80, 78, 71]⟩ ∧
    dataURLtoFile (fileToDataURL ⟨"v", "video/mp4", [0, 0, 0, 24, 102]⟩) "r.mp4" =
      .ok ⟨"r.mp4", "video/mp4", [0, 0, 0, 24, 102]⟩ :=
  ⟨codec_round_trip ⟨"p", "image/png", [137, 80, 78, 71]⟩ "r.png"
      (by decide) (by decide) (by decide),
    codec_round_trip ⟨"v", "video/mp4", [0, 0, 0, 24, 102]⟩ "r.mp4"
      (by decide) (by decide) (by decide)⟩

/-- C3 counterexample: with the stored history value `""` — an unparsable
JSON string, since `JSON.parse("")` throws — and a stored index `"0"`,
`loadInitialState` returns the empty stack but leaves both keys in place:
the falsy-string guard returns before the `try`/`catch` that deletes the
keys.  This refutes the claim that every unparsable stored history JSON
leads to both durable keys being deleted. -/
theorem loadInitialState_corrupt_counterexample :
    jsonParseEntries "" = none ∧
    loadInitialState ⟨some "", some "0"⟩ = (([], -1), ⟨some "", some "0"⟩) ∧
    (loadInitialState ⟨some "", some "0"⟩).2.history ≠ none :=
  ⟨rfl, rfl, by decide⟩

/-- C3 (amended): when both stored values are non-empty and either the
history JSON fails to parse or some stored entry fails to decode,
`loadInitialState` deletes both keys and returns the empty stack
(`length = 0`, `currentIndex = -1`); when the stored history or index
value is the empty string, the restore also returns the empty stack
without throwing but leaves the keys untouched.  `loadInitialState` is a
total function, so no exception propagates in any case. -/
theorem loadInitialState_corrupt_spec (hs is : String) :
    (hs ≠ "" → is ≠ "" →
      (jsonParseEntries hs = none ∨
        (∃ entries e, jsonParseEntries hs = some entries ∧
          mapExcept (fun item => dataURLtoFile item.dataUrl item.name) entries =
            .error e)) →
      loadInitialState ⟨some hs, some is⟩ = (([], -1), ⟨none, none⟩)) ∧
    ((hs = "" ∨ is = "") →
      loadInitialState ⟨some hs, some is⟩ = (([], -1), ⟨some hs, some is⟩)) := by
  constructor
  · intro h1 h2 h3
    unfold loadInitialState
    dsimp only
    rw [if_neg (by tauto)]
    rcases h3 with hp | ⟨entries, e, hp, hd⟩
    · rw [hp]
    · rw [hp]
      dsimp only
      rw [hd]
  · intro h
    unfold loadInitialState
    dsimp only
    rw [if_pos h]

theorem loadInitialState_corrupt_spec_witness :
    loadInitialState ⟨some "[", some "0"⟩ = (([], -1), ⟨none, none⟩) ∧
    loadInitialState
        ⟨some "[\x7b\"dataUrl\":\"nonsense\",\"name\":\"x\"\x7d]", some "0"⟩ =
      (([], -1), ⟨none, none⟩) ∧
    loadInitialState ⟨some "", some "0"⟩ = (([], -1), ⟨some "", some "0"⟩) :=
  ⟨(loadInitialState_corrupt_spec "[" "0").1 (by decide) (by decide) (.inl rfl),
    (loadInitialState_corrupt_spec
        "[\x7b\"dataUrl\":\"nonsense\",\"name\":\"x\"\x7d]" "0").1
      (by decide) (by decide)
      (.inr ⟨[⟨"nonsense", "x"⟩], "Invalid data URL", rfl, rfl⟩),
    (loadInitialState_corrupt_spec "" "0").2 (.inl rfl)⟩

/-- C6: after a successful parse and decode of the stored sequence, the
restored `currentIndex` is validated: a non-numeric (`NaN`) or
out-of-range stored index is clamped to `length-1` for a non-empty
sequence and to `-1` for an empty one, while an in-range stored index is
kept as is; storage is left untouched. -/
theorem loadInitialState_clamps_index (hs is : String) (entries : List StoredEntry)
    (files : List File) (hhs : hs ≠ "") (his : is ≠ "")
    (hp : jsonParseEntries hs = some entries)
    (hd : mapExcept (fun item => dataURLtoFile item.dataUrl item.name) entries =
      .ok files) :
    (parseIntJS is = none →
      loadInitialState ⟨some hs, some is⟩ =
        ((files, if 0 < files.length then (files.length : Int) - 1 else -1),
          ⟨some hs, some is⟩)) ∧
    (∀ i : Int, parseIntJS is = some i → (i < 0 ∨ (files.length : Int) ≤ i) →
      loadInitialState ⟨some hs, some is⟩ =
        ((files, if 0 < files.length then (files.length : Int) - 1 else -1),
          ⟨some hs, some is⟩)) ∧
    (∀ i : Int, parseIntJS is = some i → 0 ≤ i → i < (files.length : Int) →
      loadInitialState ⟨some hs, some is⟩ = ((files, i), ⟨some hs, some is⟩)) := by
  have hbase : loadInitialState ⟨some hs, some is⟩ =
      ((files,
        match parseIntJS is with
        | none => if 0 < files.length then (files.length : Int) - 1 else -1
        | some i =>
          if i < 0 ∨ (files.length : Int) ≤ i then
            if 0 < files.length then (files.length : Int) - 1 else -1
          else i),
        ⟨some hs, some is⟩) := by
    unfold loadInitialState
    dsimp only
    rw [if_neg (by tauto), hp]
    dsimp only
    rw [hd]
  refine ⟨fun hn => ?_, fun i hi hout => ?_, fun i hi h0 hlt => ?_⟩
  · rw [hbase, hn]
  · rw [hbase, hi]
    dsimp only
    rw [if_pos hout]
  · rw [hbase, hi]
    dsimp only
    rw [if_neg (by omega)]

theorem loadInitialState_clamps_index_witness :
    loadInitialState
        ⟨some "[\x7b\"dataUrl\":\"data:image/png;base64,\",\"name\":\"a\"\x7d]",
          some "5"⟩ =
      (([⟨"a", "image/png", []⟩], 0),
        ⟨some "[\x7b\"dataUrl\":\"data:image/png;base64,\",\"name\":\"a\"\x7d]",
          some "5"⟩) ∧
    loadInitialState
        ⟨some "[\x7b\"dataUrl\":\"data:image/png;base64,\",\"name\":\"a\"\x7d]",
          some "0"⟩ =
      (([⟨"a", "image/png", []⟩], 0),
        ⟨some "[\x7b\"dataUrl\":\"data:image/png;base64,\",\"name\":\"a\"\x7d]",
          some "0"⟩) := by
  constructor
  · have h := (loadInitialState_clamps_index
        "[\x7b\"dataUrl\":\"data:image/png;base64,\",\"name\":\"a\"\x7d]" "5"
        [⟨"data:image/png;base64,", "a"⟩] [⟨"a", "image/png", []⟩]
        (by decide) (by decide) rfl rfl).2.1 5 rfl (by decide)
    rw [h]
    norm_num
  · have h := (loadInitialState_clamps_index
        "[\x7b\"dataUrl\":\"data:image/png;base64,\",\"name\":\"a\"\x7d]" "0"
        [⟨"data:image/png;base64,", "a"⟩] [⟨"a", "image/png", []⟩]
        (by decide) (by decide) rfl rfl).2.2 0 rfl (by decide) (by decide)
    rw [h]

/-- C10: whenever the in-memory stack is empty or its index is below zero
— in particular right after the `handleUploadNew` "start over" action —
the `saveState` persistence effect removes both durable keys instead of
writing, and a subsequent `loadInitialState` on that storage restores the
empty stack (`length = 0`, `currentIndex = -1`). -/
theorem saveState_clears_empty (s : AppHistory) :
    ((s.history = [] ∨ s.historyIndex < 0) →
      saveState s = ⟨none, none⟩ ∧
      loadInitialState (saveState s) = (([], -1), ⟨none, none⟩)) ∧
    (saveState (handleUploadNew s) = ⟨none, none⟩ ∧
      loadInitialState (saveState (handleUploadNew s)) = (([], -1), ⟨none, none⟩)) := by
  have hload : loadInitialState ⟨none, none⟩ = (([], -1), ⟨none, none⟩) := rfl
  constructor
  · intro h
    have hno : ¬ (0 < s.history.length ∧ 0 ≤ s.historyIndex) := by
      rcases h with h | h
      · simp [h]
      · omega
    rw [saveState, if_neg hno]
    exact ⟨rfl, hload⟩
  · rw [saveState]
    dsimp only [handleUploadNew]
    rw [if_neg (by omega)]
    exact ⟨rfl, hload⟩

theorem saveState_clears_empty_witness :
    saveState ⟨[fileA], -1⟩ = ⟨none, none⟩ ∧
    loadInitialState (saveState ⟨[fileA], -1⟩) = (([], -1), ⟨none, none⟩) :=
  (saveState_clears_empty ⟨[fileA], -1⟩).1 (.inr (by decide))

/-- C7 counterexample: two gallery entries share a `createdAt` timestamp;
`getAll` hands them over in ascending id order, and the stable sort with a
comparator that ignores `id` keeps them in that order, while the claimed
id-descending tie-break would put id 2 first — so `getAllItemsFromGallery`
differs from the spec-ordered result at this store. -/
theorem gallery_order_counterexample :
    getAllItemsFromGallery [⟨1, fileA, 5⟩, ⟨2, fileB, 5⟩] =
      [⟨1, fileA, 5⟩, ⟨2, fileB, 5⟩] ∧
    listAllSpecOrdered [⟨1, fileA, 5⟩, ⟨2, fileB, 5⟩] =
      [⟨2, fileB, 5⟩, ⟨1, fileA, 5⟩] ∧
    getAllItemsFromGallery [⟨1, fileA, 5⟩, ⟨2, fileB, 5⟩] ≠
      listAllSpecOrdered [⟨1, fileA, 5⟩, ⟨2, fileB, 5⟩] := by
  have h1 : getAllItemsFromGallery [⟨1, fileA, 5⟩, ⟨2, fileB, 5⟩] =
      [⟨1, fileA, 5⟩, ⟨2, fileB, 5⟩] := by
    simp [getAllItemsFromGallery, List.mergeSort, List.merge]
  have h2 : listAllSpecOrdered [⟨1, fileA, 5⟩, ⟨2, fileB, 5⟩] =
      [⟨2, fileB, 5⟩, ⟨1, fileA, 5⟩] := by
    simp [listAllSpecOrdered, List.mergeSort, List.merge]
  exact ⟨h1, h2, by rw [h1, h2]; decide⟩

/-- C7 (amended): `getAllItemsFromGallery` returns a permutation of the
stored entries sorted by `createdAt` descending; entries with equal
`createdAt` keep the relative order in which the store hands them over
(ascending id) — the comparator ignores `id` and the sort is stable — not
the id-descending tie-break the claim states. -/
theorem gallery_listAll_order (items : List SavedItem) :
    (getAllItemsFromGallery items).Pairwise
      (fun a b : SavedItem => b.createdAt ≤ a.createdAt) ∧
    List.Perm (getAllItemsFromGallery items) items ∧
    (∀ a b : SavedItem, [a, b].Sublist items → b.createdAt ≤ a.createdAt →
      [a, b].Sublist (getAllItemsFromGallery items)) := by
  have htr : ∀ a b c : SavedItem,
      decide (b.createdAt ≤ a.createdAt) → decide (c.createdAt ≤ b.createdAt) →
      decide (c.createdAt ≤ a.createdAt) := by
    intro a b c hab hbc
    simp only [decide_eq_true_eq] at hab hbc ⊢
    omega
  have hto : ∀ a b : SavedItem,
      (decide (b.createdAt ≤ a.createdAt) || decide (a.createdAt ≤ b.createdAt)) := by
    intro a b
    rw [Bool.or_eq_true]
    simp only [decide_eq_true_eq]
    omega
  refine ⟨?_, List.mergeSort_perm items _, ?_⟩
  · exact (List.sorted_mergeSort htr hto items).imp (fun h => of_decide_eq_true h)
  · intro a b hsub hle
    exact List.pair_sublist_mergeSort htr hto (decide_eq_true hle) hsub

theorem gallery_listAll_order_witness :
    [(⟨1, fileA, 5⟩ : SavedItem), ⟨2, fileB, 5⟩].Sublist
      (getAllItemsFromGallery [⟨1, fileA, 5⟩, ⟨2, fileB, 5⟩]) :=
  (gallery_listAll_order [⟨1, fileA, 5⟩, ⟨2, fileB, 5⟩]).2.2
    ⟨1, fileA, 5⟩ ⟨2, fileB, 5⟩ (List.Sublist.refl _) (by decide)

/-- The object-URL invariant of a role: the as-yet-unrevoked URLs are
exactly the one created by the last effect run (when it created one), and
that URL is below the fresh counter. -/
def UrlInv (st : UrlRoleState) : Prop :=
  match st.cur with
  | some u => st.live = [u] ∧ u < st.next
  | none => st.live = []

theorem urlInv_step (st : UrlRoleState) (h : UrlInv st) (media : Option File) :
    UrlInv (effectStep st media) := by
  unfold UrlInv effectStep at *
  cases hcur : st.cur with
  | some u =>
      rw [hcur] at h
      cases media <;> simp [h.1, List.erase_cons]
  | none =>
      rw [hcur] at h
      cases media <;> simp [h]

theorem urlInv_run (events : List (Option File)) : UrlInv (runEffects events) := by
  have hgen : ∀ st, UrlInv st → UrlInv (events.foldl effectStep st) := by
    induction events with
    | nil => exact fun st h => h
    | cons e rest ih => exact fun st h => ih (effectStep st e) (urlInv_step st h e)
  exact hgen initialUrlRoleState rfl

/-- C8: for each role (the `current`-image and `original`-image object-URL
effects run the same code), after any sequence of bound-media changes at
most one object URL is live; binding new media always leaves exactly one
live URL for the role, and when media was already bound the previously
live URL is revoked (it is not among the live URLs afterwards); when the
bound media becomes absent, the role's live URLs become none. -/
theorem displayReference_role_invariant (events : List (Option File)) :
    (runEffects events).live.length ≤ 1 ∧
    (∀ f : File, (runEffects (events ++ [some f])).live.length = 1) ∧
    (∀ f : File, ∀ u : Nat, (runEffects events).cur = some u →
      u ∉ (runEffects (events ++ [some f])).live) ∧
    (runEffects (events ++ [none])).live = [] := by
  have hinv := urlInv_run events
  have happ : ∀ e, runEffects (events ++ [e]) = effectStep (runEffects events) e := by
    intro e
    unfold runEffects
    rw [List.foldl_append]
    rfl
  unfold UrlInv at hinv
  refine ⟨?_, fun f => ?_, fun f u hu => ?_, ?_⟩
  · cases hcur : (runEffects events).cur with
    | some u => rw [hcur] at hinv; simp [hinv.1]
    | none => rw [hcur] at hinv; simp [hinv]
  · rw [happ]
    unfold effectStep
    cases hcur : (runEffects events).cur with
    | some u => rw [hcur] at hinv; simp [hinv.1, List.erase_cons]
    | none => rw [hcur] at hinv; simp [hinv]
  · rw [happ]
    unfold effectStep
    rw [hu] at hinv ⊢
    simp only [hinv.1, List.erase_cons_head, List.nil_append, List.mem_singleton]
    omega
  · rw [happ]
    unfold effectStep
    cases hcur : (runEffects events).cur with
    | some u => rw [hcur] at hinv; simp [hinv.1, List.erase_cons]
    | none => rw [hcur] at hinv; simp [hinv]

theorem displayReference_role_invariant_witness :
    (0 : Nat) ∉ (runEffects ([some fileA] ++ [some fileB])).live :=
  (displayReference_role_invariant [some fileA]).2.2.1 fileB 0 rfl

/-- C9: when a mutating editor action's external AI call fails (for the
retouch generate action the validation preconditions held, so the call was
actually made), the history stack after the action equals the stack before
it — no partial append — and the failure is reported through the
`setError` channel with the action's message prefix. -/
theorem failed_action_leaves_history (s : AppState) (msg now : String) :
    ((∃ f, currentImage s.hist = some f) → jsTrim s.prompt ≠ "" →
      (∃ p, s.editHotspot = some p) →
      (handleGenerate s (.error msg) now).hist = s.hist ∧
      (handleGenerate s (.error msg) now).error =
        some ("画像の生成に失敗しました。 " ++ msg)) ∧
    ((∃ f, currentImage s.hist = some f) →
      (handleApplyFilter s (.error msg) now).hist = s.hist ∧
      (handleApplyFilter s (.error msg) now).error =
        some ("フィルターの適用に失敗しました。 " ++ msg)) ∧
    ((∃ f, currentImage s.hist = some f) →
      (handleApplyAdjustment s (.error msg) now).hist = s.hist ∧
      (handleApplyAdjustment s (.error msg) now).error =
        some ("調整の適用に失敗しました。 " ++ msg)) ∧
    ((∃ f, currentImage s.hist = some f) →
      (handleUpscaleImage s (.error msg) now).hist = s.hist ∧
      (handleUpscaleImage s (.error msg) now).error =
        some ("画像の高品質化に失敗しました。 " ++ msg)) := by
  refine ⟨fun hc hp hh => ?_, fun hc => ?_, fun hc => ?_, fun hc => ?_⟩
  · obtain ⟨f, hf⟩ := hc
    obtain ⟨p, hp2⟩ := hh
    unfold handleGenerate
    rw [hf]
    dsimp only
    rw [if_neg hp, hp2]
    exact ⟨rfl, rfl⟩
  · obtain ⟨f, hf⟩ := hc
    unfold handleApplyFilter
    rw [hf]
    exact ⟨rfl, rfl⟩
  · obtain ⟨f, hf⟩ := hc
    unfold handleApplyAdjustment
    rw [hf]
    exact ⟨rfl, rfl⟩
  · obtain ⟨f, hf⟩ := hc
    unfold handleUpscaleImage
    rw [hf]
    exact ⟨rfl, rfl⟩

theorem failed_action_leaves_history_witness :
    (handleGenerate ⟨⟨[fileA], 0⟩, none, true, "x", some (1, 2), none, none⟩
        (.error "boom") "1").hist = ⟨[fileA], 0⟩ ∧
    (handleApplyFilter ⟨⟨[fileA], 0⟩, none, true, "x", some (1, 2), none, none⟩
        (.error "boom") "1").hist = ⟨[fileA], 0⟩ ∧
    (handleApplyAdjustment ⟨⟨[fileA], 0⟩, none, true, "x", some (1, 2), none, none⟩
        (.error "boom") "1").hist = ⟨[fileA], 0⟩ ∧
    (handleUpscaleImage ⟨⟨[fileA], 0⟩, none, true, "x", some (1, 2), none, none⟩
        (.error "boom") "1").hist = ⟨[fileA], 0⟩ :=
  ⟨((failed_action_leaves_history ⟨⟨[fileA], 0⟩, none, true, "x", some (1, 2), none, none⟩
        "boom" "1").1 ⟨fileA, rfl⟩ (by decide) ⟨(1, 2), rfl⟩).1,
    ((failed_action_leaves_history ⟨⟨[fileA], 0⟩, none, true, "x", some (1, 2), none, none⟩
        "boom" "1").2.1 ⟨fileA, rfl⟩).1,
    ((failed_action_leaves_history ⟨⟨[fileA], 0⟩, none, true, "x", some (1, 2), none, none⟩
        "boom" "1").2.2.1 ⟨fileA, rfl⟩).1,
    ((failed_action_leaves_history ⟨⟨[fileA], 0⟩, none, true, "x", some (1, 2), none, none⟩
        "boom" "1").2.2.2 ⟨fileA, rfl⟩).1⟩
